import Mathlib

/-!
Verification of the ordered-collection abstraction of `src/utils/collections.js`.

Ordered collections are JavaScript objects with two keys, `byId` (a plain object
mapping string identifiers to items) and `order` (an array of string identifiers).
We embed them shallowly:

* a JS plain object used as a string-keyed map becomes an association list
  `StrMap β := List (String × β)`; property read, property write and `delete`
  become `lookupKey`, `setKey` and `eraseKey`.  JS objects keep the insertion
  position of an existing key on overwrite and append fresh keys at the back,
  which is exactly what `setKey` does;
* an item is a record with the two specially treated fields `id` and `name`
  (either may be absent — JS `undefined`/`null` — hence `Option`) plus an
  opaque `payload` for all remaining data fields;
* a JS property read `byId[x]` where `x` may be `undefined` coerces the key to
  the string `"undefined"`; `lookupId` reproduces this coercion;
* functions that `throw` become functions returning
  `Option CollectionError × Collection α`: the first component is the thrown
  error (`none` when the function returns normally) and the second component is
  the state of the collection when control returns to the caller.  All throwing
  operations of the source throw before mutating the collection, so on an error
  the returned state is the input state;
* the external naming collaborator `chooseUniqueIdFromName` (imported from
  `./naming`, whose source file is not part of the repository snapshot) is
  modelled from the spec; see its doc comment.

lodash helpers are embedded by their documented semantics: `has`/property reads
as association-list operations, `pull`/`reject` as `List.filter` with the negated
predicate, and `sortedIndex`/`sortedIndexBy` as the lowest insertion index into a
sorted list (`sortedLowerBound`), which is what lodash's binary search computes
on the sorted inputs these functions document that they require.
-/

/-- Special value marking a newly added ("draft") item in collections
(`NEW_ITEM_ID` in collections.js). -/
def NEW_ITEM_ID : String := "@@newItem"

/-- Errors thrown by the insertion helpers of collections.js:
`missingIdentity` for `throw new Error('New item needs either an ID or a name')`
and `duplicateId` for `throw new Error('An item with the same ID already exists')`. -/
inductive CollectionError where
  | missingIdentity : CollectionError
  | duplicateId : CollectionError
deriving DecidableEq, Repr

/-- An item of a collection: JS objects with the specially treated `id` and
`name` properties (`none` models an absent/undefined property) and an opaque
payload standing for all the remaining data fields. -/
structure Item (α : Type) where
  id : Option String := none
  name : Option String := none
  payload : Option α := none
deriving DecidableEq, Repr

/-- A string-keyed JS plain object, as an association list in key insertion
order. -/
abbrev StrMap (β : Type) := List (String × β)

/-- Property read `m[k]` on a JS object (for a string key). -/
def lookupKey {β : Type} : StrMap β → String → Option β
  | [], _ => none
  | p :: ps, k => if p.1 = k then some p.2 else lookupKey ps k

/-- lodash `has(m, k)` / JS `k in m`. -/
def containsKey {β : Type} (m : StrMap β) (k : String) : Bool :=
  (lookupKey m k).isSome

/-- Property write `m[k] = v` on a JS object: an existing key keeps its
position; a fresh key is appended at the back. -/
def setKey {β : Type} : StrMap β → String → β → StrMap β
  | [], k, v => [(k, v)]
  | p :: ps, k, v => if p.1 = k then (k, v) :: ps else p :: setKey ps k v

/-- JS `delete m[k]` (also updeep's `u.omit(k)`): the entry under `k` is
removed, all other entries keep their order. -/
def eraseKey {β : Type} (m : StrMap β) (k : String) : StrMap β :=
  m.filter (fun p => !(p.1 = k : Bool))

/-- Property read `m[x]` where the key `x` may be `undefined`: JS coerces the
key `undefined` to the string `"undefined"`. -/
def lookupId {β : Type} (m : StrMap β) (id? : Option String) : Option β :=
  lookupKey m (match id? with | none => "undefined" | some s => s)

/-- An ordered collection: `byId` maps string identifiers to items, `order` is
the array of identifiers defining the order of the items. -/
structure Collection (α : Type) where
  byId : StrMap (Item α)
  order : List String
deriving DecidableEq, Repr

/-- Helper producing the run of `k` tilde characters used by the modelled
naming collaborator below. -/
def tildes : Nat → String
  | 0 => ""
  | k + 1 => tildes k ++ "~"

/-- Modelled from the spec: the external naming collaborator
`chooseUniqueIdFromName`, imported by collections.js from `./naming`, whose
source file is missing from the repository snapshot.  Per spec section 6 it is
"given a desired name and the current collection" and "returns a unique
identifier string deterministically derived from the name"; per section 4.2 the
identifier is "guaranteed unique within the collection (collision handling —
e.g. suffixing — delegated to an external naming collaborator)".  The returned
identifier is moreover a "real" ID in the sense of collections.js (non-empty and
different from `NEW_ITEM_ID`), since finalized items "obtain a 'real' ID".  We
realize this contract as the name suffixed by the least number of `~` characters
that makes it a real identifier not yet present in `byId`. -/
def chooseUniqueIdFromName {α : Type} (name : String) (c : Collection α) : String :=
  ((((List.range (c.byId.length + 3)).map (fun k => name ++ tildes k)).find? (fun s =>
      !(s = "" : Bool) && !(s = NEW_ITEM_ID : Bool) && !(containsKey c.byId s))).getD
    name)

/-- Predicate `hasValidId` of collections.js: the item has a "real" ID, i.e.
one that is defined, not empty and not the special new-item marker. -/
def hasValidId {α : Type} (item : Item α) : Bool :=
  match item.id with
  | none => false
  | some s => !(s = "" : Bool) && !(s = NEW_ITEM_ID : Bool)

/-- Function `ensureItemHasValidId` of collections.js: if the item has no real
ID, derive one from its name (throwing `missingIdentity` when there is no name);
if it has a real ID that is already a key of `byId`, throw `duplicateId`.
The source mutates the item in place; we return the updated item. -/
def ensureItemHasValidId {α : Type} (c : Collection α) (item : Item α) :
    Except CollectionError (Item α) :=
  if !hasValidId item then
    match item.name with
    | none => .error .missingIdentity
    | some nm => .ok { item with id := some (chooseUniqueIdFromName nm c) }
  else if containsKey c.byId (item.id.getD "") then .error .duplicateId
  else .ok item

/-- JS `array.splice(n, 0, x)`: insert `x` at position `n` (the source only
calls it with `0 ≤ n < array.length`, but the definition is total). -/
def spliceIn {β : Type} (l : List β) (n : Nat) (x : β) : List β :=
  l.take n ++ x :: l.drop n

/-- Function `addItemAt` of collections.js.  The error component of the result
is the thrown error (`none` on normal return); the collection component is the
state seen by the caller afterwards — the source throws (inside
`ensureItemHasValidId`) before mutating the collection, so on an error the
input collection is returned unchanged. -/
def addItemAt {α : Type} (c : Collection α) (item : Item α) (index : Int) :
    Option CollectionError × Collection α :=
  let isNew := item.id = some NEW_ITEM_ID
  match ensureItemHasValidId c item with
  | .error e => (some e, c)
  | .ok item' =>
    let rid := item'.id.getD ""
    let byId' := setKey c.byId rid item'
    let order' :=
      if index < 0 then spliceIn c.order 0 rid
      else if (c.order.length : Int) ≤ index then c.order ++ [rid]
      else spliceIn c.order index.toNat rid
    (none, { byId := if isNew then eraseKey byId' NEW_ITEM_ID else byId'
             order := order' })

/-- lodash `sortedIndexBy` on a sorted list of keys: the lowest index at which
a value with key `k` can be inserted while keeping the list sorted (lodash's
binary search computes exactly this lower bound on the sorted inputs the
function is documented to require). -/
def sortedLowerBound {κ : Type} [LinearOrder κ] : List κ → κ → Nat
  | [], _ => 0
  | x :: xs, k => if x < k then sortedLowerBound xs k + 1 else 0

/-- Iteratee passed to `sortedIndexBy` by `addItemSorted`: resolve the
identifier through `byId` and take the sort key of the existing item, falling
back to the sort key of the incoming item when the identifier has no backing
entity (`existingItem === undefined`). -/
def sortKeyOf {α κ : Type} (c : Collection α) (item : Item α)
    (getter : Item α → κ) (id? : Option String) : κ :=
  match lookupId c.byId id? with
  | none => getter item
  | some existing => getter existing

/-- Insertion index computed by `addItemSorted` (the `sortedIndexBy` call):
the keys of the entries of `order`, searched for the key of the incoming item
(`sortedIndexBy` applies the iteratee to the searched value `item.id` as well). -/
def sortedInsertIndex {α κ : Type} [LinearOrder κ] (c : Collection α)
    (item : Item α) (getter : Item α → κ) : Nat :=
  sortedLowerBound (c.order.map (fun id => sortKeyOf c item getter (some id)))
    (sortKeyOf c item getter item.id)

/-- Function `addItemSorted` of collections.js, for a sort-key function (the
`key` argument being a property name is the instance `getter = property(key)`).
It locates the insertion point and delegates to `addItemAt`. -/
def addItemSorted {α κ : Type} [LinearOrder κ] (c : Collection α) (item : Item α)
    (getter : Item α → κ) : Option CollectionError × Collection α :=
  addItemAt c item (sortedInsertIndex c item getter : Int)

/-- lodash `sortedIndex(order, v)` where `v` may be `undefined`
(lodash sorts `undefined` after every defined value). -/
def sortedIndexOfId (order : List String) (v : Option String) : Nat :=
  match v with
  | none => order.length
  | some s => sortedLowerBound order s

/-- Function `addItemSorted` of collections.js in its `key === 'id'` shortcut
branch: `sortedIndex(collection.order, item.id)` compares the identifiers in
`order` directly with the identifier of the incoming item. -/
def addItemSortedByIdKey {α : Type} (c : Collection α) (item : Item α) :
    Option CollectionError × Collection α :=
  addItemAt c item (sortedIndexOfId c.order item.id : Int)

/-- Function `addItemToBack` of collections.js. -/
def addItemToBack {α : Type} (c : Collection α) (item : Item α) :
    Option CollectionError × Collection α :=
  addItemAt c item (c.order.length : Int)

/-- Function `addItemToFront` of collections.js. -/
def addItemToFront {α : Type} (c : Collection α) (item : Item α) :
    Option CollectionError × Collection α :=
  addItemAt c item 0

/-- Function `createNewItemInFrontOf` of collections.js: store the placeholder
item `{ id: NEW_ITEM_ID }` in `byId` (and only in `byId`).  The `idStore`
argument of the source only reports the generated ID back to the caller
(callback invocation or field assignment on a caller-owned cell) and never
touches the collection, so it is not part of the collection model. -/
def createNewItemInFrontOf {α : Type} (c : Collection α) : Collection α :=
  { c with byId := setKey c.byId NEW_ITEM_ID { id := some NEW_ITEM_ID } }

/-- Function `copyAndDeleteItemById` of collections.js: updeep's
`u.omit(idToRemove)` on `byId` and `u.reject(id => id === idToRemove)` on
`order`. -/
def copyAndDeleteItemById {α : Type} (idToRemove : String) (c : Collection α) :
    Collection α :=
  { byId := eraseKey c.byId idToRemove
    order := c.order.filter (fun id => !(id = idToRemove : Bool)) }

/-- Function `copyAndDeleteItemsByIds` of collections.js: a single-element
batch is delegated to `copyAndDeleteItemById`; otherwise updeep's
`u.omit(idsToRemove)` on `byId` and `u.reject(id => idsToRemove.includes(id))`
on `order`. -/
def copyAndDeleteItemsByIds {α : Type} (idsToRemove : List String)
    (c : Collection α) : Collection α :=
  if idsToRemove.length = 1 then
    copyAndDeleteItemById (idsToRemove.headD "") c
  else
    { byId := c.byId.filter (fun p => !(idsToRemove.contains p.1))
      order := c.order.filter (fun id => !(idsToRemove.contains id)) }

/-- Function `deleteItemById` of collections.js: `delete byId[id]` and lodash
`pull(order, id)` (removing every element equal to `id`). -/
def deleteItemById {α : Type} (c : Collection α) (idToRemove : String) :
    Collection α :=
  { byId := eraseKey c.byId idToRemove
    order := c.order.filter (fun id => !(id = idToRemove : Bool)) }

/-- Function `deleteItemsByIds` of collections.js: a `for` loop of
`delete byId[id]` over the batch, then lodash `pull(order, ...ids)`. -/
def deleteItemsByIds {α : Type} (c : Collection α) (idsToRemove : List String) :
    Collection α :=
  { byId := idsToRemove.foldl (fun m id => eraseKey m id) c.byId
    order := c.order.filter (fun id => !(idsToRemove.contains id)) }

/-- Function `selectFirst` of collections.js, destructuring its argument into
`byId` and `order` (the latter may be `undefined`).  Note the source reads
`byId[0]`, i.e. the property named `"0"`. -/
def selectFirst {α : Type} (byId : StrMap (Item α)) (order : Option (List String)) :
    Option (Item α) :=
  match order with
  | none => none
  | some o => if o.length = 0 then none else lookupKey byId "0"

/-- Function `selectLast` of collections.js.  Note the source reads
`byId[order.length - 1]`, i.e. the property named by that number. -/
def selectLast {α : Type} (byId : StrMap (Item α)) (order : Option (List String)) :
    Option (Item α) :=
  match order with
  | none => none
  | some o => if o.length = 0 then none else lookupKey byId (toString (o.length - 1))

/-- Function `selectOrdered` of collections.js: with an `order` array, map the
identifiers through `byId` and reject the nil results (`reject(..., isNil)`);
with `order` undefined, `Object.values(byId)`. -/
def selectOrdered {α : Type} (byId : StrMap (Item α)) (order : Option (List String)) :
    List (Item α) :=
  match order with
  | none => byId.map (fun p => p.2)
  | some o => (o.map (fun id => lookupKey byId id)).filterMap (fun x => x)

/-- Function `replaceItemOrAddSorted` of collections.js: an item with a real ID
replaces the entry of `byId` under that ID (a copy of the item is stored);
otherwise the item is added keeping sortedness. -/
def replaceItemOrAddSorted {α κ : Type} [LinearOrder κ] (c : Collection α)
    (item : Item α) (getter : Item α → κ) : Option CollectionError × Collection α :=
  if hasValidId item then
    (none, { byId := setKey c.byId (item.id.getD "") item, order := c.order })
  else addItemSorted c item getter

/-- Function `replaceItemOrAddToFront` of collections.js: an item with a real
ID replaces the entry of `byId` under that ID; otherwise the item is added to
the front. -/
def replaceItemOrAddToFront {α : Type} (c : Collection α) (item : Item α) :
    Option CollectionError × Collection α :=
  if hasValidId item then
    (none, { byId := setKey c.byId (item.id.getD "") item, order := c.order })
  else addItemToFront c item

/-! Helper lemmas about the JS-object embedding. -/

theorem lookupKey_setKey_self {β : Type} (m : StrMap β) (k : String) (v : β) :
    lookupKey (setKey m k v) k = some v := by
  induction m with
  | nil => simp [setKey, lookupKey]
  | cons p ps ih =>
    by_cases h : p.1 = k
    · simp [setKey, h, lookupKey]
    · simp [setKey, h, lookupKey, ih]

theorem lookupKey_setKey_ne {β : Type} (m : StrMap β) (k k' : String) (v : β)
    (h : k' ≠ k) : lookupKey (setKey m k v) k' = lookupKey m k' := by
  induction m with
  | nil =>
    simp only [setKey, lookupKey]
    rw [if_neg (fun hh => h hh.symm)]
  | cons p ps ih =>
    by_cases hp : p.1 = k
    · simp only [setKey, if_pos hp, lookupKey]
      rw [if_neg (fun hh => h hh.symm), if_neg (fun hh : p.1 = k' => h (hh.symm.trans hp))]
    · simp only [setKey, if_neg hp, lookupKey]
      by_cases hp' : p.1 = k'
      · rw [if_pos hp', if_pos hp']
      · rw [if_neg hp', if_neg hp', ih]

theorem containsKey_setKey_self {β : Type} (m : StrMap β) (k : String) (v : β) :
    containsKey (setKey m k v) k = true := by
  simp [containsKey, lookupKey_setKey_self]

theorem containsKey_setKey_of_containsKey {β : Type} (m : StrMap β) (k k' : String)
    (v : β) (h : containsKey m k' = true) : containsKey (setKey m k v) k' = true := by
  by_cases hk : k' = k
  · subst hk; exact containsKey_setKey_self m k' v
  · unfold containsKey at *
    rw [lookupKey_setKey_ne m k k' v hk]
    exact h

theorem lookupKey_eraseKey_ne {β : Type} (m : StrMap β) (k k' : String)
    (h : k' ≠ k) : lookupKey (eraseKey m k) k' = lookupKey m k' := by
  induction m with
  | nil => rfl
  | cons p ps ih =>
    by_cases hp : p.1 = k
    · simp only [eraseKey, List.filter_cons, hp, decide_True, Bool.not_true,
        Bool.false_eq_true, if_false, lookupKey,
        if_neg (show ¬ k = k' from fun hh => h hh.symm)] at ih ⊢
      exact ih
    · by_cases hp' : p.1 = k'
      · simp only [eraseKey, List.filter_cons, hp, decide_False, Bool.not_false,
          if_true, lookupKey, if_pos hp']
      · simp only [eraseKey, List.filter_cons, hp, decide_False, Bool.not_false,
          if_true, lookupKey, if_neg hp'] at ih ⊢
        exact ih

theorem containsKey_eraseKey_self {β : Type} (m : StrMap β) (k : String) :
    containsKey (eraseKey m k) k = false := by
  induction m with
  | nil => rfl
  | cons p ps ih =>
    by_cases hp : p.1 = k
    · simp only [eraseKey, List.filter_cons, hp, decide_True, Bool.not_true,
        Bool.false_eq_true, if_false] at ih ⊢
      exact ih
    · simp only [eraseKey, List.filter_cons, hp, decide_False, Bool.not_false,
        if_true, containsKey, lookupKey, if_neg hp] at ih ⊢
      exact ih

theorem containsKey_false_iff {β : Type} (m : StrMap β) (k : String) :
    containsKey m k = false ↔ lookupKey m k = none := by
  unfold containsKey
  cases lookupKey m k <;> simp

theorem mem_keys_of_containsKey {β : Type} (m : StrMap β) (k : String)
    (h : containsKey m k = true) : k ∈ m.map Prod.fst := by
  induction m with
  | nil => simp [containsKey, lookupKey] at h
  | cons p ps ih =>
    by_cases hp : p.1 = k
    · simp [hp]
    · simp only [containsKey, lookupKey, if_neg hp] at h
      simpa using Or.inr (ih h)

/-! Helper lemmas about splicing and the lower-bound search. -/

theorem mem_spliceIn {β : Type} (l : List β) (n : Nat) (x y : β) :
    y ∈ spliceIn l n x ↔ y = x ∨ y ∈ l := by
  unfold spliceIn
  constructor
  · intro hy
    rcases List.mem_append.1 hy with h1 | h2
    · exact Or.inr (List.mem_of_mem_take h1)
    · rcases List.mem_cons.1 h2 with h3 | h4
      · exact Or.inl h3
      · exact Or.inr (List.mem_of_mem_drop h4)
  · intro hy
    rcases hy with h1 | h2
    · exact List.mem_append.2 (Or.inr (List.mem_cons.2 (Or.inl h1)))
    · rw [← List.take_append_drop n l] at h2
      rcases List.mem_append.1 h2 with h3 | h4
      · exact List.mem_append.2 (Or.inl h3)
      · exact List.mem_append.2 (Or.inr (List.mem_cons.2 (Or.inr h4)))

theorem map_spliceIn {β γ : Type} (f : β → γ) (l : List β) (n : Nat) (x : β) :
    (spliceIn l n x).map f = spliceIn (l.map f) n (f x) := by
  simp [spliceIn, List.map_take, List.map_drop]

theorem spliceIn_zero {β : Type} (l : List β) (x : β) : spliceIn l 0 x = x :: l := by
  simp [spliceIn]

theorem spliceIn_length {β : Type} (l : List β) (x : β) :
    spliceIn l l.length x = l ++ [x] := by
  simp [spliceIn]

theorem count_spliceIn_of_not_mem {β : Type} [DecidableEq β] (l : List β) (n : Nat)
    (x : β) (hx : x ∉ l) : (spliceIn l n x).count x = 1 := by
  unfold spliceIn
  rw [List.count_append, List.count_cons_self]
  rw [List.count_eq_zero.2 (fun h => hx (List.mem_of_mem_take h)),
    List.count_eq_zero.2 (fun h => hx (List.mem_of_mem_drop h))]

theorem sortedLowerBound_le_length {κ : Type} [LinearOrder κ] (l : List κ) (k : κ) :
    sortedLowerBound l k ≤ l.length := by
  induction l with
  | nil => simp [sortedLowerBound]
  | cons x xs ih =>
    by_cases h : x < k
    · simpa [sortedLowerBound, h] using ih
    · simp [sortedLowerBound, h]

theorem take_sortedLowerBound_lt {κ : Type} [LinearOrder κ] (l : List κ) (k : κ) :
    ∀ x ∈ l.take (sortedLowerBound l k), x < k := by
  induction l with
  | nil => simp
  | cons x xs ih =>
    by_cases h : x < k
    · simp only [sortedLowerBound, if_pos h, List.take_succ_cons]
      intro y hy
      rcases List.mem_cons.1 hy with h1 | h2
      · exact h1 ▸ h
      · exact ih y h2
    · simp [sortedLowerBound, if_neg h]

theorem drop_sortedLowerBound_ge {κ : Type} [LinearOrder κ] (l : List κ) (k : κ)
    (hs : List.Sorted (· ≤ ·) l) : ∀ x ∈ l.drop (sortedLowerBound l k), k ≤ x := by
  induction l with
  | nil => simp
  | cons x xs ih =>
    rcases List.sorted_cons.1 hs with ⟨hx, hxs⟩
    by_cases h : x < k
    · simp only [sortedLowerBound, if_pos h, List.drop_succ_cons]
      exact ih hxs
    · simp only [sortedLowerBound, if_neg h, List.drop_zero]
      intro y hy
      rcases List.mem_cons.1 hy with h1 | h2
      · exact h1 ▸ (not_lt.1 h)
      · exact le_trans (not_lt.1 h) (hx y h2)

theorem sorted_spliceIn_sortedLowerBound {κ : Type} [LinearOrder κ] (l : List κ)
    (k : κ) (hs : List.Sorted (· ≤ ·) l) :
    List.Sorted (· ≤ ·) (spliceIn l (sortedLowerBound l k) k) := by
  induction l with
  | nil => simp [spliceIn, sortedLowerBound, List.sorted_singleton]
  | cons x xs ih =>
    rcases List.sorted_cons.1 hs with ⟨hx, hxs⟩
    by_cases h : x < k
    · have : spliceIn (x :: xs) (sortedLowerBound xs k + 1) k
          = x :: spliceIn xs (sortedLowerBound xs k) k := by
        simp [spliceIn]
      simp only [sortedLowerBound, if_pos h, this]
      refine List.sorted_cons.2 ⟨?_, ih hxs⟩
      intro y hy
      rcases (mem_spliceIn xs (sortedLowerBound xs k) k y).1 hy with h1 | h2
      · exact h1 ▸ le_of_lt h
      · exact hx y h2
    · simp only [sortedLowerBound, if_neg h, spliceIn_zero]
      refine List.sorted_cons.2 ⟨?_, hs⟩
      intro y hy
      rcases List.mem_cons.1 hy with h1 | h2
      · exact h1 ▸ (not_lt.1 h)
      · exact le_trans (not_lt.1 h) (hx y h2)

/-! Helper lemmas about the modelled naming collaborator and identifier
resolution. -/

theorem tildes_length (k : Nat) : (tildes k).length = k := by
  induction k with
  | zero => rfl
  | succ k ih =>
    show (tildes k ++ "~").length = k + 1
    have h1 : ("~" : String).length = 1 := rfl
    rw [String.length_append, ih, h1]

theorem chooseUniqueIdFromName_spec {α : Type} (name : String) (c : Collection α) :
    chooseUniqueIdFromName name c ≠ "" ∧
    chooseUniqueIdFromName name c ≠ NEW_ITEM_ID ∧
    containsKey c.byId (chooseUniqueIdFromName name c) = false := by
  have hinj : Function.Injective (fun k => name ++ tildes k) := by
    intro a b hab
    have hab' : name ++ tildes a = name ++ tildes b := hab
    have : (name ++ tildes a).length = (name ++ tildes b).length := by rw [hab']
    simpa [String.length_append, tildes_length] using this
  have hnodup : ((List.range (c.byId.length + 3)).map (fun k => name ++ tildes k)).Nodup :=
    List.Nodup.map hinj (List.nodup_range _)
  have hlen : ((List.range (c.byId.length + 3)).map (fun k => name ++ tildes k)).length
      = c.byId.length + 3 := by simp
  have hex : ∃ s ∈ (List.range (c.byId.length + 3)).map (fun k => name ++ tildes k),
      (!(s = "" : Bool) && !(s = NEW_ITEM_ID : Bool) && !(containsKey c.byId s)) = true := by
    by_contra hno
    push_neg at hno
    have hsub : ∀ s ∈ (List.range (c.byId.length + 3)).map (fun k => name ++ tildes k),
        s ∈ "" :: NEW_ITEM_ID :: c.byId.map Prod.fst := by
      intro s hs
      have hnos := hno s hs
      by_cases h1 : s = ""
      · exact h1 ▸ List.mem_cons_self _ _
      · by_cases h2 : s = NEW_ITEM_ID
        · exact List.mem_cons.2 (Or.inr (h2 ▸ List.mem_cons_self _ _))
        · have h3 : containsKey c.byId s = true := by
            by_contra hc
            have hc' : containsKey c.byId s = false := by
              simp only [Bool.not_eq_true] at hc
              exact hc
            exact hnos (by simp [h1, h2, hc'])
          exact List.mem_cons.2 (Or.inr (List.mem_cons.2 (Or.inr
            (mem_keys_of_containsKey _ _ h3))))
    have hcard1 : ((List.range (c.byId.length + 3)).map
        (fun k => name ++ tildes k)).toFinset.card = c.byId.length + 3 := by
      rw [List.toFinset_card_of_nodup hnodup, hlen]
    have hcard2 : ((List.range (c.byId.length + 3)).map
          (fun k => name ++ tildes k)).toFinset
        ⊆ ("" :: NEW_ITEM_ID :: c.byId.map Prod.fst).toFinset := by
      intro s hs
      exact List.mem_toFinset.2 (hsub s (List.mem_toFinset.1 hs))
    have hle := le_trans (Finset.card_le_card hcard2) (List.toFinset_card_le _)
    simp only [List.length_cons, List.length_map] at hle
    omega
  rcases hex with ⟨s, hs, hps⟩
  have hfind : ∃ t, ((List.range (c.byId.length + 3)).map
      (fun k => name ++ tildes k)).find? (fun s =>
        !(s = "" : Bool) && !(s = NEW_ITEM_ID : Bool) && !(containsKey c.byId s))
      = some t := by
    have : (((List.range (c.byId.length + 3)).map (fun k => name ++ tildes k)).find?
        (fun s => !(s = "" : Bool) && !(s = NEW_ITEM_ID : Bool)
          && !(containsKey c.byId s))).isSome = true :=
      List.find?_isSome.2 ⟨s, hs, hps⟩
    exact Option.isSome_iff_exists.1 this
  rcases hfind with ⟨t, ht⟩
  have hpt := List.find?_some ht
  have hres : chooseUniqueIdFromName name c = t := by
    unfold chooseUniqueIdFromName
    rw [ht]
    rfl
  simp only [Bool.and_eq_true, Bool.not_eq_true', decide_eq_false_iff_not,
    Bool.not_eq_true] at hpt
  exact ⟨hres ▸ hpt.1.1, hres ▸ hpt.1.2, hres ▸ hpt.2⟩

theorem ensure_ok_props {α : Type} (c : Collection α) (item item' : Item α)
    (h : ensureItemHasValidId c item = .ok item') :
    ∃ s, item'.id = some s ∧ s ≠ "" ∧ s ≠ NEW_ITEM_ID ∧
      containsKey c.byId s = false ∧
      item'.name = item.name ∧ item'.payload = item.payload ∧
      (hasValidId item = true → item' = item) := by
  unfold ensureItemHasValidId at h
  by_cases hv : hasValidId item = true
  · simp only [hv, Bool.not_true, Bool.false_eq_true, if_false] at h
    rcases hid : item.id with _ | s
    · simp [hasValidId, hid] at hv
    · have hs : ¬ s = "" ∧ ¬ s = NEW_ITEM_ID := by
        have := hv
        simp only [hasValidId, hid, Bool.and_eq_true, Bool.not_eq_true',
          decide_eq_false_iff_not] at this
        exact this
      by_cases hc : containsKey c.byId (item.id.getD "") = true
      · simp [hc] at h
      · simp only [Bool.not_eq_true] at hc
        simp only [hc, Bool.false_eq_true, if_false, Except.ok.injEq] at h
        refine ⟨s, ?_, hs.1, hs.2, ?_, ?_, ?_, fun _ => h.symm⟩
        · rw [← h, hid]
        · simpa [hid] using hc
        · rw [← h]
        · rw [← h]
  · simp only [Bool.not_eq_true] at hv
    simp only [hv, Bool.not_false, if_true] at h
    rcases hnm : item.name with _ | nm
    · simp [hnm] at h
    · simp only [hnm, Except.ok.injEq] at h
      rcases chooseUniqueIdFromName_spec nm c with ⟨h1, h2, h3⟩
      refine ⟨chooseUniqueIdFromName nm c, ?_, h1, h2, h3, ?_, ?_, ?_⟩
      · rw [← h]
      · rw [← h]
      · rw [← h]
      · intro hvt
        rw [hv] at hvt
        exact absurd hvt (by simp)

theorem ensure_error_cases {α : Type} (c : Collection α) (item : Item α)
    (e : CollectionError) (h : ensureItemHasValidId c item = .error e) :
    (e = .missingIdentity ∧ hasValidId item = false ∧ item.name = none) ∨
    (e = .duplicateId ∧ hasValidId item = true ∧
      containsKey c.byId (item.id.getD "") = true) := by
  unfold ensureItemHasValidId at h
  by_cases hv : hasValidId item = true
  · simp only [hv, Bool.not_true, Bool.false_eq_true, if_false] at h
    by_cases hc : containsKey c.byId (item.id.getD "") = true
    · simp only [hc, if_true, Except.error.injEq] at h
      exact Or.inr ⟨h.symm, hv, hc⟩
    · simp [hc] at h
  · simp only [Bool.not_eq_true] at hv
    simp only [hv, Bool.not_false, if_true] at h
    rcases hnm : item.name with _ | nm
    · simp only [hnm, Except.error.injEq] at h
      exact Or.inl ⟨h.symm, hv, by simp [hnm]⟩
    · simp [hnm] at h

theorem ensure_missing {α : Type} (c : Collection α) (item : Item α)
    (hv : hasValidId item = false) (hn : item.name = none) :
    ensureItemHasValidId c item = .error .missingIdentity := by
  unfold ensureItemHasValidId
  simp [hv, hn]

theorem ensure_duplicate {α : Type} (c : Collection α) (item : Item α)
    (hv : hasValidId item = true)
    (hc : containsKey c.byId (item.id.getD "") = true) :
    ensureItemHasValidId c item = .error .duplicateId := by
  unfold ensureItemHasValidId
  simp [hv, hc]

theorem addItemAt_error {α : Type} (c : Collection α) (item : Item α)
    (index : Int) (e : CollectionError)
    (h : ensureItemHasValidId c item = .error e) :
    addItemAt c item index = (some e, c) := by
  unfold addItemAt
  rw [h]

theorem addItemAt_ok_eq {α : Type} (c : Collection α) (item item' : Item α)
    (rid : String) (index : Int)
    (hok : ensureItemHasValidId c item = .ok item') (hid : item'.id = some rid) :
    addItemAt c item index =
      (none,
        { byId := if item.id = some NEW_ITEM_ID then
              eraseKey (setKey c.byId rid item') NEW_ITEM_ID
            else setKey c.byId rid item'
          order := spliceIn c.order (min (max index 0).toNat c.order.length) rid }) := by
  unfold addItemAt
  rw [hok]
  simp only [hid, Option.getD_some]
  by_cases h1 : index < 0
  · have : (max index 0).toNat = 0 := by omega
    simp only [if_pos h1, this, Nat.zero_min]
  · by_cases h2 : (c.order.length : Int) ≤ index
    · have : min (max index 0).toNat c.order.length = c.order.length := by omega
      simp only [if_neg h1, if_pos h2, this, spliceIn_length]
    · have : min (max index 0).toNat c.order.length = index.toNat := by omega
      simp only [if_neg h1, if_neg h2, this]

/-! Helper lemmas about deletion and materialization. -/

theorem foldl_eraseKey_eq_filter {β : Type} (ids : List String) (m : StrMap β) :
    ids.foldl (fun acc id => eraseKey acc id) m
      = m.filter (fun p => !(ids.contains p.1)) := by
  induction ids generalizing m with
  | nil => simp
  | cons i is ih =>
    rw [List.foldl_cons, ih]
    unfold eraseKey
    rw [List.filter_filter]
    apply List.filter_congr
    intro p _
    by_cases h1 : p.1 = i
    · simp [h1]
    · by_cases h2 : is.contains p.1 <;> simp [h1, h2]

/-- Total variant of `lookupKey` used to phrase materialization: the item
stored under a key which is known to be present (defaulting to the empty item
otherwise). -/
def forcedLookup {α : Type} (byId : StrMap (Item α)) (id : String) : Item α :=
  (lookupKey byId id).getD { }

theorem selectOrdered_eq_map {α : Type} (byId : StrMap (Item α)) (o : List String)
    (h : ∀ id ∈ o, (lookupKey byId id).isSome = true) :
    selectOrdered byId (some o) = o.map (forcedLookup byId) := by
  induction o with
  | nil => rfl
  | cons i is ih =>
    have hi := h i (List.mem_cons_self _ _)
    rcases hx : lookupKey byId i with _ | it
    · rw [hx] at hi
      simp at hi
    · simp only [selectOrdered, List.map_cons, hx, List.filterMap_cons, List.map_cons]
      have htail : (is.map (fun id => lookupKey byId id)).filterMap (fun x => x)
          = is.map (forcedLookup byId) := by
        have := ih (fun id hid => h id (List.mem_cons.2 (Or.inr hid)))
        simpa [selectOrdered] using this
      simp [htail, forcedLookup, hx]

/-! Concrete fixtures used by counterexamples and witnesses. -/

/-- Entity `{id: "a", rank: 1}` (the rank is the payload). -/
def itemA : Item Int := { id := some "a", payload := some 1 }

/-- Entity `{id: "b", rank: 3}`. -/
def itemB3 : Item Int := { id := some "b", payload := some 3 }

/-- Sort-key getter reading the rank stored in the payload. -/
def rankGetter : Item Int → Int := fun it => it.payload.getD 0

/-- Collection `{byId: {a: itemA, b: itemB3}, order: ["a","b"]}` of the spec's
concrete sorted-insert scenario. -/
def cRanks : Collection Int := { byId := [("a", itemA), ("b", itemB3)], order := ["a", "b"] }

/-- C1: the claim states that `selectFirst` returns `byId[order[0]]` and
`selectLast` returns `byId[order[order.length - 1]]`, resolving positions
through `order`.  The code instead reads `byId[0]` and `byId[order.length - 1]`
(the properties named `"0"` and `"1"` here): on the non-empty collection with
`byId = {a: itemA, b: itemB3}` and `order = ["a","b"]` both return `undefined`
although the entities at `order[0] = "a"` and `order[1] = "b"` are present —
contradicting the code's own doc comments ("returns the first/last item in the
collection, or undefined if the collection is empty"). -/
theorem c1_selectFirst_selectLast_read_numeric_keys :
    selectFirst cRanks.byId (some cRanks.order) = none ∧
    selectLast cRanks.byId (some cRanks.order) = none ∧
    lookupKey cRanks.byId "a" = some itemA ∧
    lookupKey cRanks.byId "b" = some itemB3 := by
  refine ⟨by decide, by decide, by decide, by decide⟩

/-- C3: inserting an item whose (valid) identifier is already a key of `byId`
fails with the DuplicateIdentifier error and leaves the collection completely
unchanged, for all four insertion operations. -/
theorem c3_insert_duplicate_id_fails_unchanged {α : Type} (c : Collection α)
    (item : Item α) (hvalid : hasValidId item = true)
    (hdup : containsKey c.byId (item.id.getD "") = true) :
    (∀ index : Int, addItemAt c item index = (some .duplicateId, c)) ∧
    (∀ (κ : Type) (inst : LinearOrder κ) (getter : Item α → κ),
        addItemSorted c item getter = (some .duplicateId, c)) ∧
    addItemToFront c item = (some .duplicateId, c) ∧
    addItemToBack c item = (some .duplicateId, c) := by
  have he := ensure_duplicate c item hvalid hdup
  refine ⟨fun index => addItemAt_error c item index _ he, ?_, ?_, ?_⟩
  · intro κ inst getter
    unfold addItemSorted
    exact addItemAt_error c item _ _ he
  · unfold addItemToFront
    exact addItemAt_error c item _ _ he
  · unfold addItemToBack
    exact addItemAt_error c item _ _ he

/-- Draft placeholder item `{id: NEW_ITEM_ID}`. -/
def draftItem : Item Int := { id := some NEW_ITEM_ID }

/-- Collection holding entity "a" plus a pending draft entry. -/
def cWithDraft : Collection Int :=
  { byId := [("a", itemA), (NEW_ITEM_ID, draftItem)], order := ["a"] }

/-- Witness for C3: promoting the pending draft of `cWithDraft` under the
colliding identifier "a" fails with DuplicateIdentifier and the collection —
still holding the pending draft — is unchanged. -/
theorem c3_witness :
    hasValidId ({ id := some "a", payload := some 5 } : Item Int) = true ∧
    containsKey cWithDraft.byId
      (({ id := some "a", payload := some 5 } : Item Int).id.getD "") = true ∧
    addItemAt cWithDraft { id := some "a", payload := some 5 } 0
      = (some .duplicateId, cWithDraft) :=
  ⟨by decide, by decide,
    (c3_insert_duplicate_id_fails_unchanged cWithDraft _ (by decide) (by decide)).1 0⟩

/-- C9: inserting an item with no usable identifier (missing, empty or the
draft marker) and no name fails with the MissingIdentity error — the error is
surfaced to the caller as the thrown-error component — and the collection is
left unchanged, for all four insertion operations. -/
theorem c9_insert_missing_identity_fails_unchanged {α : Type} (c : Collection α)
    (item : Item α) (hvalid : hasValidId item = false) (hname : item.name = none) :
    (∀ index : Int, addItemAt c item index = (some .missingIdentity, c)) ∧
    (∀ (κ : Type) (inst : LinearOrder κ) (getter : Item α → κ),
        addItemSorted c item getter = (some .missingIdentity, c)) ∧
    addItemToFront c item = (some .missingIdentity, c) ∧
    addItemToBack c item = (some .missingIdentity, c) := by
  have he := ensure_missing c item hvalid hname
  refine ⟨fun index => addItemAt_error c item index _ he, ?_, ?_, ?_⟩
  · intro κ inst getter
    unfold addItemSorted
    exact addItemAt_error c item _ _ he
  · unfold addItemToFront
    exact addItemAt_error c item _ _ he
  · unfold addItemToBack
    exact addItemAt_error c item _ _ he

/-- Witness for C9: inserting the nameless, identifierless item `{rank: 2}`
into `cRanks` fails with MissingIdentity and leaves the collection unchanged. -/
theorem c9_witness :
    hasValidId ({ payload := some 2 } : Item Int) = false ∧
    ({ payload := some 2 } : Item Int).name = none ∧
    addItemToBack cRanks { payload := some 2 } = (some .missingIdentity, cRanks) :=
  ⟨by decide, by decide,
    (c9_insert_missing_identity_fails_unchanged cRanks _ (by decide) (by decide)).2.2.2⟩

/-- C10: for an item with a valid identifier, `replaceItemOrAddSorted` and
`replaceItemOrAddToFront` store a copy of the item in `byId` under that
identifier and leave `order` untouched — also when the identifier was not
present before, in which case the entity is in `byId` without occupying a
position in `order`. -/
theorem c10_replace_valid_id_updates_byId_only {α κ : Type} [LinearOrder κ]
    (c : Collection α) (item : Item α) (s : String) (getter : Item α → κ)
    (hid : item.id = some s) (hvalid : hasValidId item = true) :
    replaceItemOrAddSorted c item getter
      = (none, { byId := setKey c.byId s item, order := c.order }) ∧
    replaceItemOrAddToFront c item
      = (none, { byId := setKey c.byId s item, order := c.order }) ∧
    lookupKey (setKey c.byId s item) s = some item ∧
    containsKey (setKey c.byId s item) s = true := by
  refine ⟨?_, ?_, lookupKey_setKey_self c.byId s item, containsKey_setKey_self c.byId s item⟩
  · unfold replaceItemOrAddSorted
    simp [hvalid, hid]
  · unfold replaceItemOrAddToFront
    simp [hvalid, hid]

/-- Witness for C10: replacing with item `{id: "x", rank: 7}`, whose
identifier is not present in `cRanks`, stores the entity in `byId` and leaves
`order = ["a","b"]` without a position for "x". -/
theorem c10_witness :
    (({ id := some "x", payload := some 7 } : Item Int)).id = some "x" ∧
    hasValidId ({ id := some "x", payload := some 7 } : Item Int) = true ∧
    replaceItemOrAddToFront cRanks { id := some "x", payload := some 7 }
      = (none, { byId := setKey cRanks.byId "x" { id := some "x", payload := some 7 }
                 order := cRanks.order }) :=
  ⟨by decide, by decide,
    (c10_replace_valid_id_updates_byId_only cRanks _ "x" rankGetter rfl (by decide)).2.1⟩

/-- C4: the copy-producing deletions equal the mutating deletions: removing an
identifier (or a batch of identifiers) via `copyAndDeleteItemById` /
`copyAndDeleteItemsByIds` produces exactly the collection that `deleteItemById`
/ `deleteItemsByIds` turns the input into — same `byId` entries removed and
same `order` entries spliced out.  (In this pure embedding the mutating
operations are state transformers, so the input value itself is never
modified; the equality of results is the semantic content of the claim.) -/
theorem c4_copy_deletions_equal_mutating_deletions {α : Type} (c : Collection α)
    (id : String) (ids : List String) :
    copyAndDeleteItemById id c = deleteItemById c id ∧
    copyAndDeleteItemsByIds ids c = deleteItemsByIds c ids := by
  constructor
  · rfl
  · unfold copyAndDeleteItemsByIds deleteItemsByIds
    by_cases h1 : ids.length = 1
    · rcases ids with _ | ⟨x, ids'⟩
      · simp at h1
      · rcases ids' with _ | ⟨y, ids''⟩
        · simp only [List.length_cons, List.length_nil, if_pos h1, List.headD_cons]
          unfold copyAndDeleteItemById
          rw [List.foldl_cons, List.foldl_nil]
          refine congrArg₂ Collection.mk ?_ ?_
          · rfl
          · apply List.filter_congr
            intro z _
            by_cases hz : z = x <;> simp [hz]
        · simp at h1
    · rw [if_neg h1, foldl_eraseKey_eq_filter]

theorem containsKey_of_mem {β : Type} (m : StrMap β) (p : String × β)
    (h : p ∈ m) : containsKey m p.1 = true := by
  induction m with
  | nil => simp at h
  | cons q qs ih =>
    rcases List.mem_cons.1 h with h1 | h2
    · subst h1
      simp [containsKey, lookupKey]
    · by_cases hq : q.1 = p.1
      · simp [containsKey, lookupKey, hq]
      · simpa [containsKey, lookupKey, hq] using ih h2

/-- C6: deleting identifiers that are not present is a no-op and not an error
(both for the mutating and for the copy-producing batch deletion), and batch
deletion is idempotent: deleting the same identifier set twice yields the same
collection as deleting it once. -/
theorem c6_delete_absent_noop_and_idempotent :
    (∀ (α : Type) (c : Collection α) (ids : List String),
      (∀ id ∈ ids, containsKey c.byId id = false ∧ id ∉ c.order) →
      deleteItemsByIds c ids = c ∧ copyAndDeleteItemsByIds ids c = c) ∧
    (∀ (α : Type) (c : Collection α) (ids : List String),
      deleteItemsByIds (deleteItemsByIds c ids) ids = deleteItemsByIds c ids ∧
      copyAndDeleteItemsByIds ids (copyAndDeleteItemsByIds ids c)
        = copyAndDeleteItemsByIds ids c) := by
  constructor
  · intro α c ids h
    have hby : c.byId.filter (fun p => !(ids.contains p.1)) = c.byId := by
      apply List.filter_eq_self.2
      intro p hp
      by_cases hc : ids.contains p.1
      · have hmem : p.1 ∈ ids := by simpa using hc
        exact absurd (containsKey_of_mem c.byId p hp)
          (by simp [(h p.1 hmem).1])
      · simpa using hc
    have hord : c.order.filter (fun id => !(ids.contains id)) = c.order := by
      apply List.filter_eq_self.2
      intro x hx
      by_cases hc : ids.contains x
      · have hmem : x ∈ ids := by simpa using hc
        exact absurd hx (h x hmem).2
      · simpa using hc
    constructor
    · unfold deleteItemsByIds
      rw [foldl_eraseKey_eq_filter, hby, hord]
    · unfold copyAndDeleteItemsByIds
      by_cases h1 : ids.length = 1
      · rcases ids with _ | ⟨x, ids'⟩
        · simp at h1
        · rcases ids' with _ | ⟨y, ids''⟩
          · rw [if_pos h1]
            unfold copyAndDeleteItemById
            have hx := h x (List.mem_cons_self _ _)
            have hbyx : eraseKey c.byId x = c.byId := by
              apply List.filter_eq_self.2
              intro p hp
              have := containsKey_of_mem c.byId p hp
              by_cases hpx : p.1 = x
              · rw [hpx] at this
                rw [this] at hx
                simp at hx
              · simpa using hpx
            have hordx : c.order.filter (fun id => !(id = x : Bool)) = c.order := by
              apply List.filter_eq_self.2
              intro z hz
              by_cases hzx : z = x
              · exact absurd (hzx ▸ hz) hx.2
              · simpa using hzx
            rw [List.headD_cons, hbyx, hordx]
          · simp at h1
      · rw [if_neg h1, hby, hord]
  · intro α c ids
    have hfilt : ∀ {γ : Type} (l : List γ) (p : γ → Bool),
        (l.filter p).filter p = l.filter p := by
      intro γ l p
      rw [List.filter_filter]
      apply List.filter_congr
      intro a _
      by_cases hp : p a <;> simp [hp]
    constructor
    · unfold deleteItemsByIds
      rw [foldl_eraseKey_eq_filter, foldl_eraseKey_eq_filter]
      simp only [hfilt]
    · unfold copyAndDeleteItemsByIds
      by_cases h1 : ids.length = 1
      · rcases ids with _ | ⟨x, ids'⟩
        · simp at h1
        · rcases ids' with _ | ⟨y, ids''⟩
          · rw [if_pos h1, if_pos h1]
            unfold copyAndDeleteItemById
            rw [List.headD_cons]
            refine congrArg₂ Collection.mk ?_ ?_
            · unfold eraseKey
              exact hfilt c.byId _
            · exact hfilt c.order _
          · simp at h1
      · rw [if_neg h1, if_neg h1]
        simp only [hfilt]

/-- Collection used by the C6 witness (non-empty, without "zzz"). -/
def cNoZzz : Collection Int := { byId := [("a", itemA), ("b", itemB3)], order := ["a", "b"] }

/-- Witness for C6: deleting the absent identifier "zzz" from a non-empty
collection raises no error and leaves the collection unchanged. -/
theorem c6_witness :
    (∀ id ∈ ["zzz"], containsKey cNoZzz.byId id = false ∧ id ∉ cNoZzz.order) ∧
    deleteItemsByIds cNoZzz ["zzz"] = cNoZzz :=
  ⟨by decide, (c6_delete_absent_noop_and_idempotent.1 Int cNoZzz ["zzz"] (by decide)).1⟩

/-- C8: for an item accepted by identifier resolution, `addItemAt` clamps the
target index into `[0, order.length]`: a negative index puts the resolved
identifier at position 0, an index at least the current length appends it at
the back, any other index splices it in at exactly that position; in all three
cases the entity is stored in `byId` under the resolved identifier. -/
theorem c8_addItemAt_clamps_index {α : Type} (c : Collection α)
    (item item' : Item α) (rid : String) (index : Int)
    (hok : ensureItemHasValidId c item = .ok item') (hid : item'.id = some rid) :
    (addItemAt c item index).1 = none ∧
    (index < 0 → (addItemAt c item index).2.order = rid :: c.order) ∧
    ((c.order.length : Int) ≤ index →
      (addItemAt c item index).2.order = c.order ++ [rid]) ∧
    (0 ≤ index → index < (c.order.length : Int) →
      (addItemAt c item index).2.order = spliceIn c.order index.toNat rid) ∧
    lookupKey (addItemAt c item index).2.byId rid = some item' := by
  rw [addItemAt_ok_eq c item item' rid index hok hid]
  rcases ensure_ok_props c item item' hok with ⟨s, hs, _, h2, _, _, _, _⟩
  have hsr : s = rid := Option.some.inj (hs ▸ hid)
  refine ⟨rfl, ?_, ?_, ?_, ?_⟩
  · intro hneg
    have : min (max index 0).toNat c.order.length = 0 := by omega
    rw [this, spliceIn_zero]
  · intro hge
    have : min (max index 0).toNat c.order.length = c.order.length := by omega
    rw [this, spliceIn_length]
  · intro hge hlt
    have : min (max index 0).toNat c.order.length = index.toNat := by omega
    rw [this]
  · by_cases hnew : item.id = some NEW_ITEM_ID
    · rw [if_pos hnew, lookupKey_eraseKey_ne _ _ _ (hsr ▸ h2),
        lookupKey_setKey_self]
    · rw [if_neg hnew, lookupKey_setKey_self]

/-- Witness for C8: inserting `{id: "x", rank: 7}` into `cRanks` at index -5
puts "x" at the front, at index 99 at the back, and stores the entity in
`byId`. -/
theorem c8_witness :
    ensureItemHasValidId cRanks ({ id := some "x", payload := some 7 } : Item Int)
      = .ok { id := some "x", payload := some 7 } ∧
    (addItemAt cRanks { id := some "x", payload := some 7 } (-5)).2.order
      = "x" :: cRanks.order ∧
    (addItemAt cRanks { id := some "x", payload := some 7 } 99).2.order
      = cRanks.order ++ ["x"] :=
  ⟨rfl,
    (c8_addItemAt_clamps_index cRanks { id := some "x", payload := some 7 }
      { id := some "x", payload := some 7 } "x" (-5) rfl rfl).2.1 (by decide),
    (c8_addItemAt_clamps_index cRanks { id := some "x", payload := some 7 }
      { id := some "x", payload := some 7 } "x" 99 rfl rfl).2.2.1 (by decide)⟩

/-- C7: after `createNewItemInFrontOf`, `byId` contains the draft marker and
`order` does not; promoting via an insertion with an item keyed by the draft
marker and carrying a name succeeds, after which `byId` no longer contains the
draft marker, contains an entity keyed by the identifier derived from the name,
and `order` contains that derived identifier exactly once. -/
theorem c7_draft_lifecycle {α : Type} (c : Collection α) (payload? : Option α)
    (nm : String) (index : Int)
    (horder : ∀ id ∈ c.order, containsKey c.byId id = true)
    (hnodraft : NEW_ITEM_ID ∉ c.order) :
    containsKey (createNewItemInFrontOf c).byId NEW_ITEM_ID = true ∧
    NEW_ITEM_ID ∉ (createNewItemInFrontOf c).order ∧
    (addItemAt (createNewItemInFrontOf c)
      { id := some NEW_ITEM_ID, name := some nm, payload := payload? } index).1 = none ∧
    containsKey (addItemAt (createNewItemInFrontOf c)
      { id := some NEW_ITEM_ID, name := some nm, payload := payload? } index).2.byId
      NEW_ITEM_ID = false ∧
    containsKey (addItemAt (createNewItemInFrontOf c)
      { id := some NEW_ITEM_ID, name := some nm, payload := payload? } index).2.byId
      (chooseUniqueIdFromName nm (createNewItemInFrontOf c)) = true ∧
    (addItemAt (createNewItemInFrontOf c)
      { id := some NEW_ITEM_ID, name := some nm, payload := payload? } index).2.order.count
      (chooseUniqueIdFromName nm (createNewItemInFrontOf c)) = 1 := by
  have hc1order : (createNewItemInFrontOf c).order = c.order := rfl
  rcases chooseUniqueIdFromName_spec nm (createNewItemInFrontOf c) with ⟨hd1, hd2, hd3⟩
  have hv : hasValidId ({ id := some NEW_ITEM_ID, name := some nm, payload := payload? } : Item α)
      = false := by
    simp [hasValidId]
  have hens : ensureItemHasValidId (createNewItemInFrontOf c)
      ({ id := some NEW_ITEM_ID, name := some nm, payload := payload? } : Item α)
      = .ok { id := some (chooseUniqueIdFromName nm (createNewItemInFrontOf c)),
              name := some nm, payload := payload? } := by
    unfold ensureItemHasValidId
    rw [hv]
    rfl
  have hadd := addItemAt_ok_eq (createNewItemInFrontOf c)
    { id := some NEW_ITEM_ID, name := some nm, payload := payload? }
    { id := some (chooseUniqueIdFromName nm (createNewItemInFrontOf c)),
      name := some nm, payload := payload? }
    (chooseUniqueIdFromName nm (createNewItemInFrontOf c)) index hens rfl
  rw [hadd]
  simp only [eq_self_iff_true, if_true]
  have hnotin : chooseUniqueIdFromName nm (createNewItemInFrontOf c) ∉ c.order := by
    intro hmem
    have := containsKey_setKey_of_containsKey c.byId NEW_ITEM_ID
      (chooseUniqueIdFromName nm (createNewItemInFrontOf c))
      ({ id := some NEW_ITEM_ID } : Item α) (horder _ hmem)
    rw [show setKey c.byId NEW_ITEM_ID ({ id := some NEW_ITEM_ID } : Item α)
        = (createNewItemInFrontOf c).byId from rfl] at this
    rw [this] at hd3
    exact absurd hd3 (by simp)
  refine ⟨?_, ?_, trivial, ?_, ?_, ?_⟩
  · exact containsKey_setKey_self c.byId NEW_ITEM_ID _
  · rw [hc1order]
    exact hnodraft
  · exact containsKey_eraseKey_self _ NEW_ITEM_ID
  · unfold containsKey
    rw [lookupKey_eraseKey_ne _ _ _ hd2, lookupKey_setKey_self]
    rfl
  · rw [hc1order]
    exact count_spliceIn_of_not_mem c.order _ _ hnotin

/-- Witness for C7: on `cRanks`, create a draft and promote it with the name
"Foo" at the front: the draft marker is present after `createNewItemInFrontOf`
and gone after the promotion. -/
theorem c7_witness :
    (∀ id ∈ cRanks.order, containsKey cRanks.byId id = true) ∧
    NEW_ITEM_ID ∉ cRanks.order ∧
    containsKey (createNewItemInFrontOf cRanks).byId NEW_ITEM_ID = true ∧
    containsKey (addItemAt (createNewItemInFrontOf cRanks)
      { id := some NEW_ITEM_ID, name := some "Foo", payload := some 7 } 0).2.byId
      NEW_ITEM_ID = false :=
  ⟨by decide, by decide,
    (c7_draft_lifecycle cRanks (some 7) "Foo" 0 (by decide) (by decide)).1,
    (c7_draft_lifecycle cRanks (some 7) "Foo" 0 (by decide) (by decide)).2.2.2.1⟩

theorem hasValidId_props {α : Type} (item : Item α) (s : String)
    (hid : item.id = some s) (hv : hasValidId item = true) :
    s ≠ "" ∧ s ≠ NEW_ITEM_ID := by
  unfold hasValidId at hv
  rw [hid] at hv
  simpa [Bool.and_eq_true, Bool.not_eq_true', decide_eq_false_iff_not] using hv

theorem ensure_ok_shape {α : Type} (c : Collection α) (item item' : Item α)
    (h : ensureItemHasValidId c item = .ok item') :
    ∃ t, item' = { item with id := t } := by
  unfold ensureItemHasValidId at h
  by_cases hv : hasValidId item = true
  · simp only [hv, Bool.not_true, Bool.false_eq_true, if_false] at h
    by_cases hc : containsKey c.byId (item.id.getD "") = true
    · simp [hc] at h
    · simp only [Bool.not_eq_true] at hc
      simp only [hc, Bool.false_eq_true, if_false, Except.ok.injEq] at h
      exact ⟨item.id, by rw [← h]⟩
  · simp only [Bool.not_eq_true] at hv
    simp only [hv, Bool.not_false, if_true] at h
    rcases hnm : item.name with _ | nm
    · simp [hnm] at h
    · simp only [hnm, Except.ok.injEq] at h
      exact ⟨some (chooseUniqueIdFromName nm c), h.symm⟩

/-- Collection `{byId: {a: itemA}, order: ["a"]}` for the C2 counterexample. -/
def cTie : Collection Int := { byId := [("a", itemA)], order := ["a"] }

/-- C2 counterexample: into `cTie` (one entity with rank 1) sorted-insert
`{id: "b", rank: 1}`, whose key equals the key of the existing entity "a".
The claim mandates insertion after all equal-keyed identifiers, i.e.
`order = ["a","b"]`; the code's `sortedIndexBy` returns the lowest insertion
index, so "b" lands before "a": `order = ["b","a"]`. -/
theorem c2_counterexample :
    (addItemSorted cTie { id := some "b", payload := some 1 } rankGetter).2.order
      = ["b", "a"] ∧
    (addItemSorted cTie { id := some "b", payload := some 1 } rankGetter).2.order
      ≠ ["a", "b"] := by
  refine ⟨by decide, by decide⟩

/-- C2 (amended): on a collection sorted under the key, `addItemSorted` with a
fresh-identifier item inserts the item's identifier at the lowest index whose
every earlier element has key strictly below the item's key and whose every
later element has key at least the item's key — i.e. before, not after,
existing equal-keyed identifiers. -/
theorem c2_addItemSorted_inserts_at_lowest_ge {α κ : Type} [LinearOrder κ]
    (c : Collection α) (item : Item α) (s : String) (getter : Item α → κ)
    (hid : item.id = some s) (hvalid : hasValidId item = true)
    (hfresh : containsKey c.byId s = false)
    (hsorted : List.Sorted (· ≤ ·)
      (c.order.map (fun id => sortKeyOf c item getter (some id)))) :
    (∀ x ∈ (c.order.map (fun id => sortKeyOf c item getter (some id))).take
        (sortedInsertIndex c item getter), x < getter item) ∧
    (∀ x ∈ (c.order.map (fun id => sortKeyOf c item getter (some id))).drop
        (sortedInsertIndex c item getter), getter item ≤ x) ∧
    addItemSorted c item getter
      = (none, { byId := setKey c.byId s item
                 order := spliceIn c.order (sortedInsertIndex c item getter) s }) := by
  have hk : sortKeyOf c item getter item.id = getter item := by
    unfold sortKeyOf lookupId
    rw [hid, (containsKey_false_iff c.byId s).1 hfresh]
  have hens : ensureItemHasValidId c item = .ok item := by
    unfold ensureItemHasValidId
    rw [hvalid]
    simp only [Bool.not_true, Bool.false_eq_true, if_false]
    rw [hid]
    simp [hfresh]
  have hnew : ¬ item.id = some NEW_ITEM_ID := by
    rw [hid]
    intro hh
    exact (hasValidId_props item s hid hvalid).2 (Option.some.inj hh)
  have hidx : sortedInsertIndex c item getter ≤ c.order.length := by
    unfold sortedInsertIndex
    have := sortedLowerBound_le_length
      (c.order.map (fun id => sortKeyOf c item getter (some id)))
      (sortKeyOf c item getter item.id)
    rwa [List.length_map] at this
  refine ⟨?_, ?_, ?_⟩
  · unfold sortedInsertIndex at *
    rw [hk] at *
    exact take_sortedLowerBound_lt _ _
  · unfold sortedInsertIndex at *
    rw [hk] at *
    exact drop_sortedLowerBound_ge _ _ hsorted
  · unfold addItemSorted
    rw [addItemAt_ok_eq c item item s _ hens hid]
    have hmin : min (max ((sortedInsertIndex c item getter : Nat) : Int) 0).toNat
        c.order.length = sortedInsertIndex c item getter := by
      omega
    rw [if_neg hnew, hmin]

/-- Witness for C2's amended theorem: the counterexample input itself, where
the computed insertion index is 0 (before the equal-keyed "a"). -/
theorem c2_witness :
    hasValidId ({ id := some "b", payload := some 1 } : Item Int) = true ∧
    containsKey cTie.byId "b" = false ∧
    List.Sorted (· ≤ ·) (cTie.order.map (fun id =>
      sortKeyOf cTie { id := some "b", payload := some 1 } rankGetter (some id))) ∧
    addItemSorted cTie { id := some "b", payload := some 1 } rankGetter
      = (none, { byId := setKey cTie.byId "b" { id := some "b", payload := some 1 }
                 order := spliceIn cTie.order
                   (sortedInsertIndex cTie { id := some "b", payload := some 1 }
                     rankGetter) "b" }) :=
  ⟨by decide, by decide, by decide,
    (c2_addItemSorted_inserts_at_lowest_ge cTie { id := some "b", payload := some 1 }
      "b" rankGetter rfl (by decide) (by decide) (by decide)).2.2⟩

/-- Entity `{id: "d", rank: 9}`. -/
def itemD9 : Item Int := { id := some "d", payload := some 9 }

/-- Entity stored under the literal key "undefined", rank 5. -/
def itemUndef : Item Int := { id := some "undefined", payload := some 5 }

/-- Collection for the C5 counterexample: materialized ranks [1,3,9] (sorted),
plus an entry of `byId` under the literal string key "undefined" that does not
occupy a position of `order`. -/
def cUndefKey : Collection Int :=
  { byId := [("a", itemA), ("b", itemB3), ("d", itemD9), ("undefined", itemUndef)]
    order := ["a", "b", "d"] }

/-- C5 counterexample: the materialized sequence of `cUndefKey` is sorted
under the rank, yet sorted-inserting the id-less item `{name: "c", rank: 2}`
breaks monotonicity: `sortedIndexBy` applies the iteratee to the searched value
`item.id = undefined`, the JS object read `byId[undefined]` coerces to the
literal key `"undefined"` and yields the unrelated rank 5, so "c" is spliced in
at index 2 and the materialized ranks become [1, 3, 2, 9]. -/
theorem c5_counterexample :
    List.Sorted (· ≤ ·)
      ((selectOrdered cUndefKey.byId (some cUndefKey.order)).map rankGetter) ∧
    ¬ List.Sorted (· ≤ ·)
      ((selectOrdered
        (addItemSorted cUndefKey { name := some "c", payload := some 2 } rankGetter).2.byId
        (some (addItemSorted cUndefKey { name := some "c", payload := some 2 }
          rankGetter).2.order)).map rankGetter) := by
  refine ⟨by decide, by decide⟩

/-- C5 (amended): for a collection whose materialized sequence is sorted under
a key that does not depend on the identifier field, and whose `byId` resolves
the incoming item's identifier slot to the item's own key (in particular no
entry under the literal key "undefined" is picked up for an id-less item),
`addItemSorted` keeps the materialized sequence monotonic under that key; on a
failed insertion the collection is unchanged and thus still sorted.  In
particular the spec's concrete scenario holds: sorted-inserting
`{name: "c", rank: 2}` into ranks [1, 3] yields `order = ["a", "c", "b"]`. -/
theorem c5_addItemSorted_keeps_sorted :
    (∀ (α κ : Type) (inst : LinearOrder κ) (c : Collection α) (item : Item α)
      (getter : Item α → κ),
      (∀ id ∈ c.order, (lookupKey c.byId id).isSome = true) →
      NEW_ITEM_ID ∉ c.order →
      (∀ (it : Item α) (t : Option String), getter { it with id := t } = getter it) →
      sortKeyOf c item getter item.id = getter item →
      List.Sorted (· ≤ ·) ((selectOrdered c.byId (some c.order)).map getter) →
      List.Sorted (· ≤ ·) ((selectOrdered (addItemSorted c item getter).2.byId
        (some (addItemSorted c item getter).2.order)).map getter)) ∧
    (addItemSorted cRanks { name := some "c", payload := some 2 } rankGetter).2.order
      = ["a", "c", "b"] := by
  constructor
  · intro α κ inst c item getter h1 h2 hg hkey hsorted
    cases hres : ensureItemHasValidId c item with
    | error e =>
      have hfail : addItemSorted c item getter = (some e, c) := by
        unfold addItemSorted
        exact addItemAt_error c item _ e hres
      rw [hfail]
      exact hsorted
    | ok item' =>
      obtain ⟨rid, hrid, hr1, hr2, hr3, _, _, _⟩ := ensure_ok_props c item item' hres
      obtain ⟨t, hshape⟩ := ensure_ok_shape c item item' hres
      have hgi : getter item' = getter item := by
        rw [hshape]
        exact hg item t
      set idx := sortedInsertIndex c item getter with hidxdef
      have hidxle : idx ≤ c.order.length := by
        rw [hidxdef]
        unfold sortedInsertIndex
        have := sortedLowerBound_le_length
          (c.order.map (fun id => sortKeyOf c item getter (some id)))
          (sortKeyOf c item getter item.id)
        rwa [List.length_map] at this
      set m2 := (if item.id = some NEW_ITEM_ID then
          eraseKey (setKey c.byId rid item') NEW_ITEM_ID
        else setKey c.byId rid item') with hm2
      have hmin : min (max ((idx : Nat) : Int) 0).toNat c.order.length = idx := by
        omega
      have heq : addItemSorted c item getter
          = (none, { byId := m2, order := spliceIn c.order idx rid }) := by
        unfold addItemSorted
        rw [← hidxdef, addItemAt_ok_eq c item item' rid _ hres hrid, hmin, hm2]
      have hbyId2 : (addItemSorted c item getter).2.byId = m2 := by rw [heq]
      have horder2 : (addItemSorted c item getter).2.order = spliceIn c.order idx rid := by
        rw [heq]
      rw [hbyId2, horder2]
      have hlook_rid : lookupKey m2 rid = some item' := by
        rw [hm2]
        by_cases hnew : item.id = some NEW_ITEM_ID
        · rw [if_pos hnew, lookupKey_eraseKey_ne _ _ _ hr2, lookupKey_setKey_self]
        · rw [if_neg hnew, lookupKey_setKey_self]
      have hnotin : rid ∉ c.order := by
        intro hmem
        have hsm := h1 rid hmem
        rw [(containsKey_false_iff c.byId rid).1 hr3] at hsm
        simp at hsm
      have hlook_old : ∀ id ∈ c.order, lookupKey m2 id = lookupKey c.byId id := by
        intro id hmem
        have hne_rid : id ≠ rid := fun hh => hnotin (hh ▸ hmem)
        have hne_new : id ≠ NEW_ITEM_ID := fun hh => h2 (hh ▸ hmem)
        rw [hm2]
        by_cases hnew : item.id = some NEW_ITEM_ID
        · rw [if_pos hnew, lookupKey_eraseKey_ne _ _ _ hne_new,
            lookupKey_setKey_ne _ _ _ _ hne_rid]
        · rw [if_neg hnew, lookupKey_setKey_ne _ _ _ _ hne_rid]
      have hsome2 : ∀ id ∈ spliceIn c.order idx rid, (lookupKey m2 id).isSome = true := by
        intro id hmem
        rcases (mem_spliceIn _ _ _ _).1 hmem with h | h
        · rw [h, hlook_rid]
          rfl
        · rw [hlook_old id h]
          exact h1 id h
      rw [selectOrdered_eq_map m2 _ hsome2, List.map_map, map_spliceIn]
      have hval_rid : (getter ∘ forcedLookup m2) rid = getter item := by
        simp only [Function.comp, forcedLookup, hlook_rid, Option.getD_some]
        exact hgi
      have hmap_eq : (c.order.map (getter ∘ forcedLookup m2))
          = c.order.map (fun id => sortKeyOf c item getter (some id)) := by
        apply List.map_congr_left
        intro id hmem
        have hsome := h1 id hmem
        rcases hx : lookupKey c.byId id with _ | it
        · rw [hx] at hsome
          simp at hsome
        · simp only [Function.comp, forcedLookup, hlook_old id hmem, hx,
            Option.getD_some, sortKeyOf, lookupId]
      have hsorted' : List.Sorted (· ≤ ·)
          (c.order.map (fun id => sortKeyOf c item getter (some id))) := by
        rw [selectOrdered_eq_map c.byId c.order h1, List.map_map] at hsorted
        have hpt : (c.order.map (getter ∘ forcedLookup c.byId))
            = c.order.map (fun id => sortKeyOf c item getter (some id)) := by
          apply List.map_congr_left
          intro id hmem
          have hsome := h1 id hmem
          rcases hx : lookupKey c.byId id with _ | it
          · rw [hx] at hsome
            simp at hsome
          · simp only [Function.comp, forcedLookup, hx, Option.getD_some,
              sortKeyOf, lookupId]
        rwa [hpt] at hsorted
      have hidx_eq : idx = sortedLowerBound
          (c.order.map (fun id => sortKeyOf c item getter (some id))) (getter item) := by
        rw [hidxdef]
        unfold sortedInsertIndex
        rw [hkey]
      rw [hval_rid, hmap_eq, hidx_eq]
      exact sorted_spliceIn_sortedLowerBound _ _ hsorted'
  · decide

/-- Witness for C5's amended theorem: the spec's own scenario — ranks [1, 3]
with `{name: "c", rank: 2}` sorted-inserted — satisfies every hypothesis, and
the materialized ranks stay sorted. -/
theorem c5_witness :
    (∀ id ∈ cRanks.order, (lookupKey cRanks.byId id).isSome = true) ∧
    NEW_ITEM_ID ∉ cRanks.order ∧
    (∀ (it : Item Int) (t : Option String), rankGetter { it with id := t } = rankGetter it) ∧
    sortKeyOf cRanks { name := some "c", payload := some 2 } rankGetter
      ({ name := some "c", payload := some 2 } : Item Int).id
      = rankGetter { name := some "c", payload := some 2 } ∧
    List.Sorted (· ≤ ·)
      ((selectOrdered cRanks.byId (some cRanks.order)).map rankGetter) ∧
    List.Sorted (· ≤ ·)
      ((selectOrdered
        (addItemSorted cRanks { name := some "c", payload := some 2 } rankGetter).2.byId
        (some (addItemSorted cRanks { name := some "c", payload := some 2 }
          rankGetter).2.order)).map rankGetter) :=
  ⟨by decide, by decide, fun it t => rfl, by decide, by decide,
    c5_addItemSorted_keeps_sorted.1 Int Int _ cRanks
      { name := some "c", payload := some 2 } rankGetter (by decide) (by decide)
      (fun it t => rfl) (by decide) (by decide)⟩
